import Mathlib

/-!
Verification of the watmarket backend against its specification.

The development shallowly embeds the CPMM pricing engine
(`backend/app/services/odds.py`), the market resolver
(`backend/app/services/resolver.py`), the invalidation flow invoked from
`backend/app/routers/lines.py`, and the portfolio aggregation endpoint
(`backend/app/routers/bets.py`).

Python floats are modelled as exact real numbers; the quote path, whose
claims hinge on decimal rounding, is modelled over the rationals so that
concrete quotes can be computed by `decide`.  The sqrt-based sell path is
modelled over the reals.  Python `round` (round-half-to-even) is modelled
exactly by `pyRound`.
-/

/-- Python `round(x)` on a non-negative-precision boundary:
round-half-to-even, modelled on exact rationals. -/
def pyRound (x : ℚ) : ℤ :=
  let f : ℤ := ⌊x⌋
  let r : ℚ := x - (f : ℚ)
  if r < 1/2 then f
  else if 1/2 < r then f + 1
  else if f % 2 = 0 then f else f + 1

/-- Python `round(x, 4)`: round to four decimal places, half to even. -/
def round4 (x : ℚ) : ℚ :=
  (pyRound (x * 10000) : ℚ) / 10000

/-- Field-for-field image of `app.models.schemas.LineOdds`. -/
structure LineOdds where
  yes_probability : ℚ
  no_probability : ℚ
  yes_odds : ℚ
  no_odds : ℚ
deriving DecidableEq

/-- Embedding of `calculate_odds` from `backend/app/services/odds.py`. -/
def calculate_odds (yes_pool no_pool : ℚ) : LineOdds :=
  if yes_pool ≤ 0 ∨ no_pool ≤ 0 then
    { yes_probability := 0.5, no_probability := 0.5, yes_odds := 2.0, no_odds := 2.0 }
  else
    let total := yes_pool + no_pool
    let p_yes := no_pool / total
    let p_no := yes_pool / total
    { yes_probability := round4 p_yes
      no_probability := round4 p_no
      yes_odds := if p_yes > 0 then round4 (1 / p_yes) else 0
      no_odds := if p_no > 0 then round4 (1 / p_no) else 0 }

noncomputable section

open scoped Classical

/-- Embedding of `calculate_cpmm_buy` from `backend/app/services/odds.py`.
Returns `(shares_bought, new_yes_pool, new_no_pool)`.  Lean division is
total, so the Python `ZeroDivisionError` case (`k / 0`) is captured
separately by `calculate_cpmm_buyE`. -/
def calculate_cpmm_buy (investment : ℝ) (outcome : String) (yes_pool no_pool : ℝ) :
    ℝ × ℝ × ℝ :=
  let k := yes_pool * no_pool
  if outcome = "yes" then
    let new_no_pool := no_pool + investment
    let new_yes_pool := k / new_no_pool
    let shares_from_pool := yes_pool - new_yes_pool
    let shares_bought := investment + shares_from_pool
    (shares_bought, new_yes_pool, new_no_pool)
  else
    let new_yes_pool := yes_pool + investment
    let new_no_pool := k / new_yes_pool
    let shares_from_pool := no_pool - new_no_pool
    let shares_bought := investment + shares_from_pool
    (shares_bought, new_yes_pool, new_no_pool)

/-- Embedding of `calculate_cpmm_buy` keeping track of the one fallible spot:
Python raises `ZeroDivisionError` when the divided-by pool is zero, which is
modelled as `none`. -/
def calculate_cpmm_buyE (investment : ℝ) (outcome : String) (yes_pool no_pool : ℝ) :
    Option (ℝ × ℝ × ℝ) :=
  if outcome = "yes" then
    if no_pool + investment = 0 then none
    else some (calculate_cpmm_buy investment outcome yes_pool no_pool)
  else
    if yes_pool + investment = 0 then none
    else some (calculate_cpmm_buy investment outcome yes_pool no_pool)

/-- Embedding of `_calculate_cost_to_buy_shares` from
`backend/app/services/odds.py` (quadratic inverse of the buy). -/
def calculate_cost_to_buy_shares (shares : ℝ) (outcome : String) (yes_pool no_pool : ℝ) :
    ℝ :=
  if shares ≤ 0 then 0
  else
    let Y := if outcome = "yes" then yes_pool else no_pool
    let N := if outcome = "yes" then no_pool else yes_pool
    let b := Y + N - shares
    let c := -(shares * N)
    let disc := b * b - 4 * 1 * c
    if disc < 0 then 0
    else (-b + Real.sqrt disc) / (2 * 1)

/-- Embedding of `calculate_cpmm_sell` from `backend/app/services/odds.py`
(sell by buying the opposite outcome and netting). -/
def calculate_cpmm_sell (shares : ℝ) (outcome : String) (yes_pool no_pool : ℝ) : ℝ :=
  if shares ≤ 0 then 0
  else
    let opposite_outcome := if outcome = "yes" then "no" else "yes"
    let cost_to_buy_opposite :=
      calculate_cost_to_buy_shares shares opposite_outcome yes_pool no_pool
    max 0 (shares - cost_to_buy_opposite)

/-- Embedding of `calculate_cpmm_sell_with_pools` from
`backend/app/services/odds.py`.  Returns
`(amount_received, new_yes_pool, new_no_pool)`. -/
def calculate_cpmm_sell_with_pools (shares : ℝ) (outcome : String) (yes_pool no_pool : ℝ) :
    ℝ × ℝ × ℝ :=
  if shares ≤ 0 then (0, yes_pool, no_pool)
  else
    let amount_received := calculate_cpmm_sell shares outcome yes_pool no_pool
    if amount_received ≤ 0 then (0, yes_pool, no_pool)
    else if outcome = "yes" then
      (amount_received, yes_pool + (shares - amount_received), no_pool - amount_received)
    else
      (amount_received, yes_pool - amount_received, no_pool + (shares - amount_received))

/-- Embedding of `calculate_potential_payout`. -/
def calculate_potential_payout (shares : ℝ) : ℝ := shares

/-- One trading mutation applied to a market: a buy or a sell. -/
inductive TradeStep where
  | buy (investment : ℝ) (outcome : String)
  | sell (shares : ℝ) (outcome : String)

/-- Pool transition of a single trade step, as performed by the backend:
buys go through `calculate_cpmm_buy`, sells through
`calculate_cpmm_sell_with_pools`. -/
def applyTradeStep (pools : ℝ × ℝ) : TradeStep → ℝ × ℝ
  | TradeStep.buy i o =>
      ((calculate_cpmm_buy i o pools.1 pools.2).2.1,
       (calculate_cpmm_buy i o pools.1 pools.2).2.2)
  | TradeStep.sell s o =>
      ((calculate_cpmm_sell_with_pools s o pools.1 pools.2).2.1,
       (calculate_cpmm_sell_with_pools s o pools.1 pools.2).2.2)

/-- A step the ledger would actually issue: buys carry a positive stake
(the ledger rejects non-positive stakes before pricing). -/
def validTradeStep : TradeStep → Prop
  | TradeStep.buy i _ => 0 < i
  | TradeStep.sell _ _ => True

end

namespace Ledger

/-- A prediction line (market) row, the fields the resolver and the
invalidation flow read and write. -/
structure Line where
  id : ℕ
  resolved : Bool
  correct_outcome : Option String
  yes_pool : ℚ
  no_pool : ℚ
deriving DecidableEq

/-- A bet (position lot) row. -/
structure Bet where
  id : ℕ
  user_id : ℕ
  outcome : String
  stake : ℤ
  shares : Option ℚ
  payout : Option ℤ
deriving DecidableEq

/-- A ledger transaction row. -/
structure Txn where
  user_id : ℕ
  amount : ℤ
  kind : String
  reference_id : ℕ
deriving DecidableEq

/-- The database state touched by resolution and invalidation of a single
line: the line itself, its bets, the user balances and the transaction
log.  Balances are a total map from user id to `karma_balance`. -/
structure MarketState where
  line : Line
  bets : List Bet
  balances : ℕ → ℤ
  txns : List Txn

/-- Summary dictionary returned by `resolve_line`. -/
structure ResolveSummary where
  total_bets : ℕ
  winners : ℕ
  losers : ℕ
  total_payout : ℤ
deriving DecidableEq

/-- Summary returned by the invalidation flow
(`users_refunded`, `total_refunded`). -/
structure InvalidateSummary where
  users_refunded : ℕ
  total_refunded : ℤ
deriving DecidableEq

/-- Payout of one winning bet: `int(round(bet.get("shares") or 0))`. -/
def betPayout (b : Bet) : ℤ := pyRound (b.shares.getD 0)

/-- The payout transaction inserted for one winning payout entry. -/
def payoutTxn (line_id : ℕ) (p : ℕ × ℤ) : Txn :=
  { user_id := p.1, amount := p.2, kind := "payout", reference_id := line_id }

/-- One iteration of the payout loop in `resolve_line`: when the payout is
positive, read the balance, write it back increased, and insert a payout
transaction. -/
def applyPayout (line_id : ℕ) (acc : (ℕ → ℤ) × List Txn) (p : ℕ × ℤ) :
    (ℕ → ℤ) × List Txn :=
  if 0 < p.2 then
    (Function.update acc.1 p.1 (acc.1 p.1 + p.2), acc.2 ++ [payoutTxn line_id p])
  else acc

/-- Embedding of `resolve_line` from `backend/app/services/resolver.py`,
acting on a `MarketState` snapshot.  The Python function raises before the
first database write when the line is already resolved, so the error case
returns the state unchanged. -/
def resolve_line (s : MarketState) (correct_outcome : String) :
    MarketState × Except String ResolveSummary :=
  if s.line.resolved then (s, Except.error "already resolved")
  else if s.bets.isEmpty then
    ({ s with line :=
        { s.line with resolved := true, correct_outcome := some correct_outcome } },
     Except.ok { total_bets := 0, winners := 0, losers := 0, total_payout := 0 })
  else
    let winning_bets := s.bets.filter (fun b => b.outcome = correct_outcome)
    let losing_bets := s.bets.filter (fun b => ¬ b.outcome = correct_outcome)
    let payouts := winning_bets.map (fun b => (b.user_id, betPayout b))
    let bets' := s.bets.map (fun b =>
      if b.outcome = correct_outcome then { b with payout := some (betPayout b) }
      else { b with payout := some 0 })
    let final := payouts.foldl (applyPayout s.line.id) (s.balances, s.txns)
    ({ line := { s.line with resolved := true, correct_outcome := some correct_outcome },
       bets := bets',
       balances := final.1,
       txns := final.2 },
     Except.ok
       { total_bets := s.bets.length
         winners := winning_bets.length
         losers := losing_bets.length
         total_payout := (payouts.map Prod.snd).sum })

/-- The bet/sell transactions recorded against the line: a bet is logged
with amount `-stake`, a sell with amount `+proceeds`. -/
def lineTxns (s : MarketState) : List Txn :=
  s.txns.filter (fun t => t.reference_id = s.line.id ∧ (t.kind = "bet" ∨ t.kind = "sell"))

/-- Net investment of one user on the line, recovered from the transaction
log: sum of buy stakes minus sum of sell proceeds. -/
def netInvestment (s : MarketState) (u : ℕ) : ℤ :=
  (((lineTxns s).filter (fun t => t.user_id = u ∧ t.kind = "bet")).map (fun t => -t.amount)).sum
    - (((lineTxns s).filter (fun t => t.user_id = u ∧ t.kind = "sell")).map (fun t => t.amount)).sum

/-- Users with trading activity on the line. -/
def activeUsers (s : MarketState) : List ℕ :=
  ((lineTxns s).map Txn.user_id).dedup

/-- The refund transaction inserted for one refunded user. -/
def refundTxn (line_id : ℕ) (u : ℕ) (r : ℤ) : Txn :=
  { user_id := u, amount := r, kind := "refund", reference_id := line_id }

/-- One iteration of the refund loop: refund `max 0 (netInvestment)` to a
user, recording a refund transaction and the summary counters, skipping
zero refunds. -/
def applyRefund (s : MarketState) (acc : (ℕ → ℤ) × List Txn × ℕ × ℤ) (u : ℕ) :
    (ℕ → ℤ) × List Txn × ℕ × ℤ :=
  let r := max 0 (netInvestment s u)
  if 0 < r then
    (Function.update acc.1 u (acc.1 u + r),
     acc.2.1 ++ [refundTxn s.line.id u r],
     acc.2.2.1 + 1,
     acc.2.2.2 + r)
  else acc

/-- Modelled from the spec: `invalidate_line` is imported by
`backend/app/routers/lines.py` from `app.services.resolver` and called by
`invalidate_prediction_line`, but its definition is absent from the source
tree.  Modelled from spec section 4.2 `invalidateMarket`: for each account
with activity on the market, `netInvestment` is the sum of its buy stakes
minus the sum of its sell proceeds recovered from the transaction log; the
refund is `max 0 netInvestment`; the balance is increased by the refund and
a refund transaction appended when the refund is positive; the market
becomes resolved with outcome `invalid` and both pools are forced to 0. -/
def invalidate_line (s : MarketState) :
    MarketState × Except String InvalidateSummary :=
  if s.line.resolved then (s, Except.error "already resolved")
  else
    let final := (activeUsers s).foldl (applyRefund s) (s.balances, s.txns, 0, 0)
    ({ line := { s.line with
          resolved := true
          correct_outcome := some "invalid"
          yes_pool := 0
          no_pool := 0 },
       bets := s.bets,
       balances := final.1,
       txns := final.2.1 },
     Except.ok { users_refunded := final.2.2.1, total_refunded := final.2.2.2 })

/-- Concrete market state used by the resolution witness: two bets on the
yes side by users 1 and 2, one bet on the no side by user 3. -/
def resolveWitnessState : MarketState :=
  { line := { id := 7, resolved := false, correct_outcome := none,
              yes_pool := 80, no_pool := 110 }
    bets :=
      [ { id := 1, user_id := 1, outcome := "yes", stake := 10,
          shares := some (1909/100), payout := none }
      , { id := 2, user_id := 2, outcome := "yes", stake := 50,
          shares := some (125/2), payout := none }
      , { id := 3, user_id := 3, outcome := "no", stake := 20,
          shares := some 30, payout := none } ]
    balances := fun u => if u = 1 then 40 else if u = 2 then 0 else if u = 3 then 25 else 0
    txns := [] }

/-- Concrete already-resolved market state used by the terminal-state
witness. -/
def resolvedWitnessState : MarketState :=
  { line := { id := 3, resolved := true, correct_outcome := some "no",
              yes_pool := 0, no_pool := 0 }
    bets := []
    balances := fun _ => 0
    txns := [] }

/-- Concrete market state used by the invalidation witness: user 1 bet 100
and sold for 120, user 2 only bet 100. -/
def invalidateWitnessState : MarketState :=
  { line := { id := 7, resolved := false, correct_outcome := none,
              yes_pool := 80, no_pool := 110 }
    bets := []
    balances := fun u => if u = 1 then 50 else if u = 2 then 70 else 0
    txns :=
      [ { user_id := 1, amount := -100, kind := "bet", reference_id := 7 }
      , { user_id := 1, amount := 120, kind := "sell", reference_id := 7 }
      , { user_id := 2, amount := -100, kind := "bet", reference_id := 7 } ] }

end Ledger

noncomputable section

namespace Portfolio

/-- The line fields read by the portfolio endpoint. -/
structure PLine where
  resolved : Bool
  yes_pool : ℝ
  no_pool : ℝ

/-- A bet row joined with its line (`select("*, lines(*)")`); a missing
line join is `none` and the bet is skipped. -/
structure PBet where
  line_id : ℕ
  outcome : String
  stake : ℝ
  shares : Option ℝ
  payout : Option ℝ
  line : Option PLine

/-- One aggregated position in `positions_map`, keyed by
`(line_id, outcome)`. -/
structure Position where
  line : PLine
  outcome : String
  total_shares : ℝ
  total_cost : ℝ
  total_payout : ℝ

/-- Step 1 loop body of `get_portfolio_summary`: fold one bet into the
insertion-ordered association list backing `positions_map`. -/
def addBetToPositions (m : List ((ℕ × String) × Position)) (b : PBet) :
    List ((ℕ × String) × Position) :=
  match b.line with
  | none => m
  | some line =>
      let key := (b.line_id, b.outcome)
      let shares := b.shares.getD 0
      if m.any (fun e => e.1 = key) then
        m.map (fun e =>
          if e.1 = key then
            (e.1, { e.2 with
                total_shares := e.2.total_shares + shares
                total_cost := e.2.total_cost + b.stake
                total_payout := e.2.total_payout + b.payout.getD 0 })
          else e)
      else
        m ++ [(key, { line := line, outcome := b.outcome, total_shares := shares,
                      total_cost := b.stake, total_payout := b.payout.getD 0 })]

/-- The `positions_map` built by step 1 of `get_portfolio_summary`. -/
def aggregatePositions (bets : List PBet) : List ((ℕ × String) × Position) :=
  bets.foldl addBetToPositions []

/-- The CPMM liquidation value of one aggregated active position, computed
once for the entire position. -/
def positionValue (p : Position) : ℝ :=
  calculate_cpmm_sell p.total_shares p.outcome p.line.yes_pool p.line.no_pool

/-- The running metrics of step 2 of `get_portfolio_summary`. -/
structure Metrics where
  active_invested : ℝ
  active_value : ℝ
  total_invested : ℝ
  total_returned : ℝ
  active_count : ℕ
  resolved_count : ℕ

/-- Step 2 loop body of `get_portfolio_summary`: resolved positions
contribute their payout to the returns, active positions their liquidation
value. -/
def addPosition (acc : Metrics) (p : Position) : Metrics :=
  if p.line.resolved then
    { acc with
        total_invested := acc.total_invested + p.total_cost
        total_returned := acc.total_returned + p.total_payout
        resolved_count := acc.resolved_count + 1 }
  else
    let position_value := positionValue p
    { acc with
        total_invested := acc.total_invested + p.total_cost
        active_invested := acc.active_invested + p.total_cost
        active_value := acc.active_value + position_value
        total_returned := acc.total_returned + position_value
        active_count := acc.active_count + 1 }

/-- Field-for-field image of `app.models.schemas.PortfolioSummary`. -/
structure PortfolioSummary where
  cash_balance : ℝ
  invested_value : ℝ
  positions_value : ℝ
  total_portfolio_value : ℝ
  total_pnl : ℝ
  total_pnl_percent : ℝ
  active_positions_count : ℕ
  resolved_positions_count : ℕ

/-- Embedding of `get_portfolio_summary` from `backend/app/routers/bets.py`
as a function of the joined bet rows of the user and the cash balance. -/
def get_portfolio_summary (bets : List PBet) (karma_balance : ℝ) : PortfolioSummary :=
  let positions := aggregatePositions bets
  let m := (positions.map Prod.snd).foldl addPosition
    { active_invested := 0, active_value := 0, total_invested := 0,
      total_returned := 0, active_count := 0, resolved_count := 0 }
  let total_pnl := m.total_returned - m.total_invested
  let total_pnl_percent :=
    if m.total_invested > 0 then total_pnl / m.total_invested * 100 else 0
  { cash_balance := karma_balance
    invested_value := m.active_invested
    positions_value := m.active_value
    total_portfolio_value := karma_balance + m.active_value
    total_pnl := total_pnl
    total_pnl_percent := total_pnl_percent
    active_positions_count := m.active_count
    resolved_positions_count := m.resolved_count }

end Portfolio

end

/-! Helper lemmas for the CPMM quadratic sell path. -/

/-- The root taken by `_calculate_cost_to_buy_shares` is non-negative and
satisfies the CPMM quadratic. -/
theorem sqrt_root_props (b m : ℝ) (hm : 0 < m) :
    0 ≤ (-b + Real.sqrt (b * b + 4 * m)) / 2 ∧
    ((-b + Real.sqrt (b * b + 4 * m)) / 2) * ((-b + Real.sqrt (b * b + 4 * m)) / 2) +
      b * ((-b + Real.sqrt (b * b + 4 * m)) / 2) - m = 0 := by
  have hd : 0 ≤ b * b + 4 * m := by nlinarith
  have hs : Real.sqrt (b * b + 4 * m) * Real.sqrt (b * b + 4 * m) = b * b + 4 * m :=
    Real.mul_self_sqrt hd
  constructor
  · rcases le_or_lt b 0 with hb | hb
    · have h0 := Real.sqrt_nonneg (b * b + 4 * m)
      linarith
    · have h1 : Real.sqrt (b * b) ≤ Real.sqrt (b * b + 4 * m) :=
        Real.sqrt_le_sqrt (by linarith)
      rw [Real.sqrt_mul_self hb.le] at h1
      linarith
  · linear_combination hs / 4

/-- Closed form of `calculate_cost_to_buy_shares` when the share count is
positive and the pool backing the bought outcome is positive. -/
theorem cost_eval (S : ℝ) (o : String) (yp np Y N : ℝ) (hS : 0 < S) (hN : 0 < N)
    (hY : (if o = "yes" then yp else np) = Y)
    (hNe : (if o = "yes" then np else yp) = N) :
    calculate_cost_to_buy_shares S o yp np =
      (-(Y + N - S) + Real.sqrt ((Y + N - S) * (Y + N - S) + 4 * (S * N))) / 2 := by
  have h1 : ¬ S ≤ 0 := not_le.mpr hS
  unfold calculate_cost_to_buy_shares
  rw [if_neg h1]
  simp only [hY, hNe]
  have hd : ¬ ((Y + N - S) * (Y + N - S) - 4 * 1 * -(S * N) < 0) := by
    push_neg
    nlinarith
  rw [if_neg hd]
  rw [show (Y + N - S) * (Y + N - S) - 4 * 1 * -(S * N) =
        (Y + N - S) * (Y + N - S) + 4 * (S * N) by ring]
  norm_num

/-- `calculate_cpmm_sell` on a positive share count is the clamped net of
buying the opposite side. -/
theorem sell_pos_eval (S : ℝ) (o : String) (y n : ℝ) (hS : 0 < S) :
    calculate_cpmm_sell S o y n =
      max 0 (S - calculate_cost_to_buy_shares S (if o = "yes" then "no" else "yes") y n) := by
  have h1 : ¬ S ≤ 0 := not_le.mpr hS
  unfold calculate_cpmm_sell
  rw [if_neg h1]

/-- `calculate_cpmm_sell_with_pools` keeps the pool product exactly and
keeps both pools positive. -/
theorem sell_with_pools_invariant (S : ℝ) (o : String) (y n : ℝ)
    (hy : 0 < y) (hn : 0 < n) :
    (calculate_cpmm_sell_with_pools S o y n).2.1 *
        (calculate_cpmm_sell_with_pools S o y n).2.2 = y * n ∧
    0 < (calculate_cpmm_sell_with_pools S o y n).2.1 ∧
    0 < (calculate_cpmm_sell_with_pools S o y n).2.2 := by
  rcases le_or_lt S 0 with hS | hS
  · simp [calculate_cpmm_sell_with_pools, hS]
    exact ⟨hy, hn⟩
  · have h1 : ¬ S ≤ 0 := not_le.mpr hS
    rcases le_or_lt (calculate_cpmm_sell S o y n) 0 with hA | hA
    · simp [calculate_cpmm_sell_with_pools, h1, hA]
      exact ⟨hy, hn⟩
    · have h2 : ¬ calculate_cpmm_sell S o y n ≤ 0 := not_le.mpr hA
      by_cases ho : o = "yes"
      · subst ho
        have hCeq : calculate_cost_to_buy_shares S "no" y n =
            (-(n + y - S) + Real.sqrt ((n + y - S) * (n + y - S) + 4 * (S * y))) / 2 :=
          cost_eval S "no" y n n y hS hy (by rw [if_neg (by decide)])
            (by rw [if_neg (by decide)])
        have hroot := sqrt_root_props (n + y - S) (S * y) (mul_pos hS hy)
        rw [← hCeq] at hroot
        obtain ⟨hC0, hCq⟩ := hroot
        set C := calculate_cost_to_buy_shares S "no" y n with hCdef
        have hsell : calculate_cpmm_sell S "yes" y n = max 0 (S - C) := by
          rw [sell_pos_eval S "yes" y n hS, if_pos rfl]
        rw [hsell] at hA h2
        have hSC : 0 < S - C := by
          rcases lt_max_iff.mp hA with h | h
          · exact absurd h (lt_irrefl 0)
          · exact h
        have hAmax : max 0 (S - C) = S - C := max_eq_right hSC.le
        unfold calculate_cpmm_sell_with_pools
        rw [if_neg h1, hsell, hAmax, if_neg (not_le.mpr hSC)]
        rw [if_pos rfl]
        refine ⟨?_, ?_, ?_⟩
        · linear_combination hCq
        · simp only []
          linarith
        · simp only []
          by_contra hcon
          push_neg at hcon
          nlinarith [mul_pos hy hn]
      · have hCeq : calculate_cost_to_buy_shares S "yes" y n =
            (-(y + n - S) + Real.sqrt ((y + n - S) * (y + n - S) + 4 * (S * n))) / 2 :=
          cost_eval S "yes" y n y n hS hn (by rw [if_pos rfl]) (by rw [if_pos rfl])
        have hroot := sqrt_root_props (y + n - S) (S * n) (mul_pos hS hn)
        rw [← hCeq] at hroot
        obtain ⟨hC0, hCq⟩ := hroot
        set C := calculate_cost_to_buy_shares S "yes" y n with hCdef
        have hsell : calculate_cpmm_sell S o y n = max 0 (S - C) := by
          rw [sell_pos_eval S o y n hS, if_neg ho]
        rw [hsell] at hA h2
        have hSC : 0 < S - C := by
          rcases lt_max_iff.mp hA with h | h
          · exact absurd h (lt_irrefl 0)
          · exact h
        have hAmax : max 0 (S - C) = S - C := max_eq_right hSC.le
        unfold calculate_cpmm_sell_with_pools
        rw [if_neg h1, hsell, hAmax, if_neg (not_le.mpr hSC), if_neg ho]
        refine ⟨?_, ?_, ?_⟩
        · linear_combination hCq
        · simp only []
          by_contra hcon
          push_neg at hcon
          nlinarith [mul_pos hy hn]
        · simp only []
          linarith

/-- Evaluation of `calculate_cpmm_buy` on the yes side. -/
theorem buy_yes_eval (i y n : ℝ) :
    calculate_cpmm_buy i "yes" y n =
      (i + (y - y * n / (n + i)), y * n / (n + i), n + i) := by
  simp [calculate_cpmm_buy]

/-- Evaluation of `calculate_cpmm_buy` on any non-yes side. -/
theorem buy_ne_eval (i y n : ℝ) (o : String) (ho : ¬ o = "yes") :
    calculate_cpmm_buy i o y n =
      (i + (n - y * n / (y + i)), y + i, y * n / (y + i)) := by
  simp [calculate_cpmm_buy, ho]

/-- `calculate_cpmm_buy` keeps the pool product exactly, keeps both pools
positive, and always hands out more shares than the investment. -/
theorem buy_invariant (i : ℝ) (o : String) (y n : ℝ)
    (hi : 0 < i) (hy : 0 < y) (hn : 0 < n) :
    (calculate_cpmm_buy i o y n).2.1 * (calculate_cpmm_buy i o y n).2.2 = y * n ∧
    0 < (calculate_cpmm_buy i o y n).2.1 ∧
    0 < (calculate_cpmm_buy i o y n).2.2 ∧
    i < (calculate_cpmm_buy i o y n).1 := by
  by_cases ho : o = "yes"
  · subst ho
    have hni : (0 : ℝ) < n + i := by linarith
    rw [buy_yes_eval]
    refine ⟨div_mul_cancel₀ _ (ne_of_gt hni), div_pos (mul_pos hy hn) hni, hni, ?_⟩
    have hlt : y * n / (n + i) < y := by
      rw [div_lt_iff₀ hni]
      nlinarith
    simp only []
    linarith
  · have hyi : (0 : ℝ) < y + i := by linarith
    rw [buy_ne_eval i y n o ho]
    refine ⟨?_, hyi, div_pos (mul_pos hy hn) hyi, ?_⟩
    · rw [mul_comm]
      exact div_mul_cancel₀ _ (ne_of_gt hyi)
    · have hlt : y * n / (y + i) < n := by
        rw [div_lt_iff₀ hyi]
        nlinarith
      simp only []
      linarith

/-- Every valid trade step keeps the pool product and pool positivity. -/
theorem applyTradeStep_invariant (st : TradeStep) (hv : validTradeStep st)
    (y n : ℝ) (hy : 0 < y) (hn : 0 < n) :
    (applyTradeStep (y, n) st).1 * (applyTradeStep (y, n) st).2 = y * n ∧
    0 < (applyTradeStep (y, n) st).1 ∧ 0 < (applyTradeStep (y, n) st).2 := by
  cases st with
  | buy i o =>
      have h := buy_invariant i o y n hv hy hn
      exact ⟨h.1, h.2.1, h.2.2.1⟩
  | sell s o =>
      exact sell_with_pools_invariant s o y n hy hn

/-- Any sequence of valid trade steps keeps the pool product and pool
positivity. -/
theorem foldl_trade_invariant (steps : List TradeStep)
    (hv : ∀ st ∈ steps, validTradeStep st) :
    ∀ y n : ℝ, 0 < y → 0 < n →
      (steps.foldl applyTradeStep (y, n)).1 * (steps.foldl applyTradeStep (y, n)).2 = y * n ∧
      0 < (steps.foldl applyTradeStep (y, n)).1 ∧
      0 < (steps.foldl applyTradeStep (y, n)).2 := by
  induction steps with
  | nil =>
      intro y n hy hn
      exact ⟨rfl, hy, hn⟩
  | cons st rest ih =>
      intro y n hy hn
      have hst := hv st (List.mem_cons_self _ _)
      have hrest : ∀ s ∈ rest, validTradeStep s := fun s hs => hv s (List.mem_cons_of_mem _ hs)
      obtain ⟨hp, h1, h2⟩ := applyTradeStep_invariant st hst y n hy hn
      have hrec := ih hrest (applyTradeStep (y, n) st).1 (applyTradeStep (y, n) st).2 h1 h2
      simp only [List.foldl_cons]
      exact ⟨hrec.1.trans hp, hrec.2.1, hrec.2.2⟩

/-- C1: for every sequence of valid buy and sell operations applied to a
market with positive pools, the product `yesPool * noPool` after each step
equals the product before it (exactly, hence within relative tolerance
`1e-4`); in particular `calculate_cpmm_buy` and
`calculate_cpmm_sell_with_pools` each return new pools whose product equals
the old product. -/
theorem cpmm_product_invariant :
    (∀ steps : List TradeStep, (∀ st ∈ steps, validTradeStep st) →
      ∀ y n : ℝ, 0 < y → 0 < n →
        (steps.foldl applyTradeStep (y, n)).1 * (steps.foldl applyTradeStep (y, n)).2
          = y * n) ∧
    (∀ (i : ℝ) (o : String) (y n : ℝ), 0 < i → 0 < y → 0 < n →
      (calculate_cpmm_buy i o y n).2.1 * (calculate_cpmm_buy i o y n).2.2 = y * n) ∧
    (∀ (S : ℝ) (o : String) (y n : ℝ), 0 < y → 0 < n →
      (calculate_cpmm_sell_with_pools S o y n).2.1 *
        (calculate_cpmm_sell_with_pools S o y n).2.2 = y * n) := by
  refine ⟨?_, ?_, ?_⟩
  · intro steps hv y n hy hn
    exact (foldl_trade_invariant steps hv y n hy hn).1
  · intro i o y n hi hy hn
    exact (buy_invariant i o y n hi hy hn).1
  · intro S o y n hy hn
    exact (sell_with_pools_invariant S o y n hy hn).1

/-- Witness for C1 at a concrete two-step trade sequence. -/
theorem cpmm_product_invariant_witness :
    ([TradeStep.buy 10 "yes", TradeStep.sell 5 "no"].foldl applyTradeStep
        ((100 : ℝ), (100 : ℝ))).1 *
      ([TradeStep.buy 10 "yes", TradeStep.sell 5 "no"].foldl applyTradeStep
        ((100 : ℝ), (100 : ℝ))).2 = 100 * 100 := by
  have hv : ∀ st ∈ [TradeStep.buy (10 : ℝ) "yes", TradeStep.sell (5 : ℝ) "no"],
      validTradeStep st := by
    intro st hst
    simp only [List.mem_cons, List.not_mem_nil, or_false] at hst
    rcases hst with rfl | rfl
    · show (0 : ℝ) < 10
      norm_num
    · trivial
  exact cpmm_product_invariant.1 _ hv 100 100 (by norm_num) (by norm_num)

/-- C10: selling a non-positive share count returns zero and leaves the
pools untouched, and any sell whose computed proceeds are non-positive
leaves the pools untouched. -/
theorem cpmm_sell_zero_frame (S : ℝ) (o : String) (y n : ℝ) :
    (S ≤ 0 → calculate_cpmm_sell S o y n = 0 ∧
      calculate_cpmm_sell_with_pools S o y n = (0, y, n)) ∧
    (calculate_cpmm_sell S o y n ≤ 0 →
      calculate_cpmm_sell_with_pools S o y n = (0, y, n)) := by
  constructor
  · intro hS
    exact ⟨by simp [calculate_cpmm_sell, hS], by simp [calculate_cpmm_sell_with_pools, hS]⟩
  · intro hA
    rcases le_or_lt S 0 with hS | hS
    · simp [calculate_cpmm_sell_with_pools, hS]
    · have h1 : ¬ S ≤ 0 := not_le.mpr hS
      unfold calculate_cpmm_sell_with_pools
      rw [if_neg h1, if_pos hA]

/-- Witness for C10 at a concrete non-positive share count. -/
theorem cpmm_sell_zero_frame_witness :
    calculate_cpmm_sell (-1) "yes" 5 7 = 0 ∧
    calculate_cpmm_sell_with_pools (-1) "yes" 5 7 = (0, 5, 7) :=
  (cpmm_sell_zero_frame (-1) "yes" 5 7).1 (by norm_num)

/-- C5 counterexample: buying the pricier side does NOT yield
`sharesOut < investment`.  With pools `(yes, no) = (10, 90)` the yes side
is the pricier one (smaller pool, probability 0.9), yet investing 10 in it
returns 11 shares, more than the investment. -/
theorem cpmm_buy_pricier_counterexample :
    (0 : ℝ) < 10 ∧ (0 : ℝ) < 10 ∧ (0 : ℝ) < 90 ∧ (10 : ℝ) < 90 ∧
    (calculate_cpmm_buy 10 "yes" 10 90).1 = 11 ∧
    ¬ ((calculate_cpmm_buy 10 "yes" 10 90).1 < 10) := by
  norm_num [buy_yes_eval]

/-- C5 (amended): buying either side always yields strictly more shares
than the investment; buying the pricier side (the outcome with the smaller
pool) yields fewer than `2 * investment` shares, while the cheaper side is
not so bounded. -/
theorem cpmm_buy_slippage_direction (i y n : ℝ)
    (hi : 0 < i) (hy : 0 < y) (hn : 0 < n) :
    (∀ o : String, i < (calculate_cpmm_buy i o y n).1) ∧
    (y < n → (calculate_cpmm_buy i "yes" y n).1 < 2 * i) ∧
    (n < y → (calculate_cpmm_buy i "no" y n).1 < 2 * i) := by
  refine ⟨fun o => (buy_invariant i o y n hi hy hn).2.2.2, ?_, ?_⟩
  · intro hyn
    rw [buy_yes_eval]
    have hni : (0 : ℝ) < n + i := by linarith
    have h2 : y - i < y * n / (n + i) := by
      rw [lt_div_iff₀ hni]
      nlinarith
    simp only []
    linarith
  · intro hny
    rw [buy_ne_eval i y n "no" (by decide)]
    have hyi : (0 : ℝ) < y + i := by linarith
    have h2 : n - i < y * n / (y + i) := by
      rw [lt_div_iff₀ hyi]
      nlinarith
    simp only []
    linarith

/-- Witness for the amended C5 at pools `(10, 90)` and investment 10. -/
theorem cpmm_buy_slippage_direction_witness :
    (10 : ℝ) < (calculate_cpmm_buy 10 "yes" 10 90).1 ∧
    (calculate_cpmm_buy 10 "yes" 10 90).1 < 2 * 10 := by
  have h := cpmm_buy_slippage_direction 10 10 90 (by norm_num) (by norm_num) (by norm_num)
  exact ⟨h.1 "yes", h.2.1 (by norm_num)⟩

/-- C8 counterexample: `calculate_cpmm_buy` is not total on all
real-number inputs: at `investment = -10` against `no_pool = 10` the
Python code divides by zero (modelled as `none`). -/
theorem cpmm_buy_zero_division_counterexample :
    calculate_cpmm_buyE (-10) "yes" 10 10 = none := by
  unfold calculate_cpmm_buyE
  rw [if_pos rfl, if_pos (by norm_num)]

/-- C8 (amended): with either pool non-positive, `calculate_odds` returns
the degenerate 50/50 quote with odds 2.0; `calculate_odds`,
`calculate_cpmm_sell` and `_calculate_cost_to_buy_shares` are total, and
`calculate_cpmm_buy` returns normally whenever the pool being divided by
(opposite pool plus investment) is non-zero — in particular on all positive
pools and positive investments — but raises on the zero divisor. -/
theorem pricing_engine_guards :
    (∀ y n : ℚ, y ≤ 0 ∨ n ≤ 0 →
      calculate_odds y n =
        { yes_probability := 1/2, no_probability := 1/2, yes_odds := 2, no_odds := 2 }) ∧
    (∀ (i : ℝ) (o : String) (y n : ℝ),
      (if o = "yes" then n + i else y + i) ≠ 0 →
      calculate_cpmm_buyE i o y n = some (calculate_cpmm_buy i o y n)) ∧
    (∀ (i : ℝ) (o : String) (y n : ℝ), 0 < i → 0 < y → 0 < n →
      calculate_cpmm_buyE i o y n = some (calculate_cpmm_buy i o y n)) := by
  have hbuy : ∀ (i : ℝ) (o : String) (y n : ℝ),
      (if o = "yes" then n + i else y + i) ≠ 0 →
      calculate_cpmm_buyE i o y n = some (calculate_cpmm_buy i o y n) := by
    intro i o y n h
    unfold calculate_cpmm_buyE
    by_cases ho : o = "yes"
    · subst ho
      rw [if_pos rfl] at h
      rw [if_pos rfl, if_neg h]
    · rw [if_neg ho] at h
      rw [if_neg ho, if_neg h]
  refine ⟨?_, hbuy, ?_⟩
  · intro y n h
    unfold calculate_odds
    rw [if_pos h]
    simp only [LineOdds.mk.injEq]
    norm_num
  · intro i o y n hi hy hn
    apply hbuy
    by_cases ho : o = "yes"
    · subst ho
      rw [if_pos rfl]
      positivity
    · rw [if_neg ho]
      positivity

/-- C2: buying for any positive investment on positive pools and
immediately selling the bought shares on the post-buy pools returns exactly
the investment (hence within `1e-6`) and restores both pools exactly. -/
theorem cpmm_buy_sell_round_trip (i : ℝ) (o : String) (y n : ℝ)
    (hi : 0 < i) (hy : 0 < y) (hn : 0 < n) :
    calculate_cpmm_sell_with_pools (calculate_cpmm_buy i o y n).1 o
        (calculate_cpmm_buy i o y n).2.1 (calculate_cpmm_buy i o y n).2.2 = (i, y, n) ∧
    calculate_cpmm_sell (calculate_cpmm_buy i o y n).1 o
        (calculate_cpmm_buy i o y n).2.1 (calculate_cpmm_buy i o y n).2.2 = i := by
  by_cases ho : o = "yes"
  · subst ho
    have hni : (0 : ℝ) < n + i := by linarith
    have hy' : 0 < y * n / (n + i) := div_pos (mul_pos hy hn) hni
    set y' := y * n / (n + i) with hy_def
    have hy_lt : y' < y := by
      rw [hy_def, div_lt_iff₀ hni]
      nlinarith
    have hkey : y' * (n + i) = y * n := by
      rw [hy_def]
      field_simp
    rw [buy_yes_eval]
    simp only []
    set S := i + (y - y') with hSdef
    have hS : 0 < S := by
      rw [hSdef]
      linarith
    have hCeq : calculate_cost_to_buy_shares S "no" y' (n + i) =
        (-((n + i) + y' - S) +
          Real.sqrt (((n + i) + y' - S) * ((n + i) + y' - S) + 4 * (S * y'))) / 2 :=
      cost_eval S "no" y' (n + i) (n + i) y' hS hy' (by rw [if_neg (by decide)])
        (by rw [if_neg (by decide)])
    have hdisc : ((n + i) + y' - S) * ((n + i) + y' - S) + 4 * (S * y') = (y + n) ^ 2 := by
      rw [hSdef]
      linear_combination 4 * hkey
    have hsqrt : Real.sqrt (((n + i) + y' - S) * ((n + i) + y' - S) + 4 * (S * y'))
        = y + n := by
      rw [hdisc, Real.sqrt_sq (by linarith : (0 : ℝ) ≤ y + n)]
    have hC : calculate_cost_to_buy_shares S "no" y' (n + i) = y - y' := by
      rw [hCeq, hsqrt, hSdef]
      ring
    have hsell : calculate_cpmm_sell S "yes" y' (n + i) = i := by
      rw [sell_pos_eval S "yes" y' (n + i) hS, if_pos rfl, hC,
        show S - (y - y') = i by rw [hSdef]; ring]
      exact max_eq_right hi.le
    refine ⟨?_, hsell⟩
    unfold calculate_cpmm_sell_with_pools
    rw [if_neg (not_le.mpr hS), hsell, if_neg (not_le.mpr hi), if_pos rfl]
    simp only [Prod.mk.injEq]
    refine ⟨trivial, by rw [hSdef]; ring, by ring⟩
  · have hyi : (0 : ℝ) < y + i := by linarith
    have hn' : 0 < y * n / (y + i) := div_pos (mul_pos hy hn) hyi
    set n' := y * n / (y + i) with hn_def
    have hn_lt : n' < n := by
      rw [hn_def, div_lt_iff₀ hyi]
      nlinarith
    have hkey : n' * (y + i) = y * n := by
      rw [hn_def]
      field_simp
    rw [buy_ne_eval i y n o ho]
    simp only []
    set S := i + (n - n') with hSdef
    have hS : 0 < S := by
      rw [hSdef]
      linarith
    have hCeq : calculate_cost_to_buy_shares S "yes" (y + i) n' =
        (-((y + i) + n' - S) +
          Real.sqrt (((y + i) + n' - S) * ((y + i) + n' - S) + 4 * (S * n'))) / 2 :=
      cost_eval S "yes" (y + i) n' (y + i) n' hS hn' (by rw [if_pos rfl])
        (by rw [if_pos rfl])
    have hdisc : ((y + i) + n' - S) * ((y + i) + n' - S) + 4 * (S * n') = (y + n) ^ 2 := by
      rw [hSdef]
      linear_combination 4 * hkey
    have hsqrt : Real.sqrt (((y + i) + n' - S) * ((y + i) + n' - S) + 4 * (S * n'))
        = y + n := by
      rw [hdisc, Real.sqrt_sq (by linarith : (0 : ℝ) ≤ y + n)]
    have hC : calculate_cost_to_buy_shares S "yes" (y + i) n' = n - n' := by
      rw [hCeq, hsqrt, hSdef]
      ring
    have hsell : calculate_cpmm_sell S o (y + i) n' = i := by
      rw [sell_pos_eval S o (y + i) n' hS, if_neg ho, hC,
        show S - (n - n') = i by rw [hSdef]; ring]
      exact max_eq_right hi.le
    refine ⟨?_, hsell⟩
    unfold calculate_cpmm_sell_with_pools
    rw [if_neg (not_le.mpr hS), hsell, if_neg (not_le.mpr hi), if_neg ho]
    simp only [Prod.mk.injEq]
    refine ⟨trivial, by ring, by rw [hSdef]; ring⟩

/-- Witness for C2 at investment 10 against pools `(100, 100)`. -/
theorem cpmm_buy_sell_round_trip_witness :
    calculate_cpmm_sell_with_pools (calculate_cpmm_buy 10 "yes" 100 100).1 "yes"
        (calculate_cpmm_buy 10 "yes" 100 100).2.1
        (calculate_cpmm_buy 10 "yes" 100 100).2.2 = (10, 100, 100) :=
  (cpmm_buy_sell_round_trip 10 "yes" 100 100 (by norm_num) (by norm_num) (by norm_num)).1

/-- Witness for C8: the degenerate quote on a zero pool and a successful
buy on positive inputs, both through the claim theorem. -/
theorem pricing_engine_guards_witness :
    calculate_odds 0 100 =
      { yes_probability := 1/2, no_probability := 1/2, yes_odds := 2, no_odds := 2 } ∧
    calculate_cpmm_buyE 10 "yes" 100 100 = some (calculate_cpmm_buy 10 "yes" 100 100) :=
  ⟨pricing_engine_guards.1 0 100 (Or.inl le_rfl),
   pricing_engine_guards.2.2 10 "yes" 100 100 (by norm_num) (by norm_num) (by norm_num)⟩

/-- Evaluation of `pyRound` on an explicit integer-plus-remainder
decomposition of its argument. -/
theorem pyRound_decomp (x : ℚ) (f : ℤ) (r : ℚ)
    (hx : x = (f : ℚ) + r) (h0 : 0 ≤ r) (h1 : r < 1) :
    pyRound x =
      if r < 1/2 then f else if 1/2 < r then f + 1
      else if f % 2 = 0 then f else f + 1 := by
  have hfl : ⌊x⌋ = f := by
    rw [Int.floor_eq_iff]
    constructor
    · rw [hx]
      linarith
    · rw [hx]
      linarith
  unfold pyRound
  simp only [hfl]
  rw [hx, show (f : ℚ) + r - (f : ℚ) = r by ring]

/-- Rounding a quantity and its complement to 10000 (an even integer)
half-to-even always recovers 10000 exactly. -/
theorem pyRound_add_compl (t : ℚ) : pyRound t + pyRound (10000 - t) = 10000 := by
  set f := ⌊t⌋ with hf
  set r := t - (f : ℚ) with hr
  have h0 : 0 ≤ r := by
    rw [hr]
    linarith [Int.floor_le t]
  have h1 : r < 1 := by
    rw [hr]
    linarith [Int.lt_floor_add_one t]
  have ht : t = (f : ℚ) + r := by
    rw [hr]
    ring
  by_cases hz : r = 0
  · have e1 : pyRound t = f := by
      rw [pyRound_decomp t f r ht h0 h1, if_pos (by rw [hz]; norm_num)]
    have e2 : pyRound (10000 - t) = 10000 - f := by
      rw [pyRound_decomp (10000 - t) (10000 - f) 0
          (by push_cast; rw [ht, hz]; ring) le_rfl (by norm_num),
        if_pos (by norm_num)]
    rw [e1, e2]
    ring
  · have hz0 : 0 < r := lt_of_le_of_ne h0 (Ne.symm hz)
    have e1 := pyRound_decomp t f r ht h0 h1
    have e2 := pyRound_decomp (10000 - t) (9999 - f) (1 - r)
      (by push_cast; rw [ht]; ring) (by linarith) (by linarith)
    rw [e1, e2]
    rcases lt_trichotomy r (1/2) with hlt | heq | hgt
    · rw [if_pos hlt, if_neg (by linarith : ¬ (1 - r < 1/2)),
        if_pos (by linarith : 1/2 < 1 - r)]
      ring
    · rw [if_neg (by rw [heq]; intro hcon; linarith : ¬ (r < 1/2)),
        if_neg (by rw [heq]; intro hcon; linarith : ¬ (1/2 < r)),
        if_neg (by rw [heq]; intro hcon; linarith : ¬ (1 - r < 1/2)),
        if_neg (by rw [heq]; intro hcon; linarith : ¬ (1/2 < 1 - r))]
      by_cases hpar : f % 2 = 0
      · rw [if_pos hpar, if_neg (show ¬ ((9999 - f) % 2 = 0) by omega)]
        ring
      · rw [if_neg hpar, if_pos (show (9999 - f) % 2 = 0 by omega)]
        ring
    · rw [if_neg (by linarith : ¬ (r < 1/2)), if_pos hgt,
        if_pos (by linarith : 1 - r < 1/2)]
      ring

/-- C6 counterexample: the returned probability is NOT exactly
`noPool / (yesPool + noPool)`: with pools `(1, 2)` the code reports
`round(2/3, 4) = 0.6667 ≠ 2/3`. -/
theorem calculate_odds_exact_counterexample :
    (0 : ℚ) < 1 ∧ (0 : ℚ) < 2 ∧
    (calculate_odds 1 2).yes_probability ≠ 2 / (1 + 2) := by
  refine ⟨by norm_num, by norm_num, ?_⟩
  have hpr : pyRound (2 / (1 + 2) * 10000) = 6667 := by
    rw [pyRound_decomp (2 / (1 + 2) * 10000) 6666 (2/3)
        (by norm_num) (by norm_num) (by norm_num)]
    norm_num
  have hval : (calculate_odds 1 2).yes_probability = round4 (2 / (1 + 2)) := by
    unfold calculate_odds
    rw [if_neg (by norm_num : ¬ ((1 : ℚ) ≤ 0 ∨ (2 : ℚ) ≤ 0))]
  rw [hval]
  unfold round4
  rw [hpr]
  norm_num

/-- C6 (amended): for positive pools the quote carries the probabilities
`noPool/(yesPool+noPool)` and `yesPool/(yesPool+noPool)` and the odds
`1/p`, each rounded to 4 decimal places (half to even), and the two
reported probabilities sum to exactly 1 (hence within `1e-9`). -/
theorem calculate_odds_rounded (y n : ℚ) (hy : 0 < y) (hn : 0 < n) :
    calculate_odds y n =
      { yes_probability := round4 (n / (y + n))
        no_probability := round4 (y / (y + n))
        yes_odds := round4 ((y + n) / n)
        no_odds := round4 ((y + n) / y) } ∧
    (calculate_odds y n).yes_probability + (calculate_odds y n).no_probability = 1 := by
  have hyn : (0 : ℚ) < y + n := by linarith
  have hguard : ¬ (y ≤ 0 ∨ n ≤ 0) := by
    push_neg
    exact ⟨hy, hn⟩
  have hpy : (0 : ℚ) < n / (y + n) := div_pos hn hyn
  have hpn : (0 : ℚ) < y / (y + n) := div_pos hy hyn
  have heq : calculate_odds y n =
      { yes_probability := round4 (n / (y + n))
        no_probability := round4 (y / (y + n))
        yes_odds := round4 ((y + n) / n)
        no_odds := round4 ((y + n) / y) } := by
    unfold calculate_odds
    rw [if_neg hguard]
    simp only []
    rw [if_pos hpy, if_pos hpn, one_div_div, one_div_div]
  refine ⟨heq, ?_⟩
  rw [heq]
  show round4 (n / (y + n)) + round4 (y / (y + n)) = 1
  unfold round4
  have harg : y / (y + n) * 10000 = 10000 - n / (y + n) * 10000 := by
    field_simp
    ring
  rw [harg, div_add_div_same, ← Int.cast_add, pyRound_add_compl]
  norm_num

/-- Witness for the amended C6 at pools `(1, 2)`. -/
theorem calculate_odds_rounded_witness :
    calculate_odds 1 2 =
      { yes_probability := round4 (2 / (1 + 2))
        no_probability := round4 (1 / (1 + 2))
        yes_odds := round4 ((1 + 2) / 2)
        no_odds := round4 ((1 + 2) / 1) } ∧
    (calculate_odds 1 2).yes_probability + (calculate_odds 1 2).no_probability = 1 :=
  calculate_odds_rounded 1 2 (by norm_num) (by norm_num)

namespace Ledger

/-- Balance component of the payout loop: each user ends with their
starting balance plus the sum of their positive payouts. -/
theorem applyPayout_foldl_balance (line_id : ℕ) (l : List (ℕ × ℤ)) :
    ∀ (f : ℕ → ℤ) (t : List Txn) (u : ℕ),
      (l.foldl (applyPayout line_id) (f, t)).1 u =
        f u + ((l.filter (fun p => p.1 = u ∧ 0 < p.2)).map Prod.snd).sum := by
  induction l with
  | nil =>
      intro f t u
      simp
  | cons p rest ih =>
      intro f t u
      rw [List.foldl_cons]
      simp only [List.filter_cons]
      by_cases hp : 0 < p.2
      · have happ : applyPayout line_id (f, t) p =
            (Function.update f p.1 (f p.1 + p.2), t ++ [payoutTxn line_id p]) := by
          unfold applyPayout
          rw [if_pos hp]
        rw [happ, ih]
        by_cases hu : p.1 = u
        · subst hu
          rw [if_pos (by simp [hp])]
          rw [List.map_cons, List.sum_cons, Function.update_same]
          ring
        · rw [if_neg (by simp [hu])]
          rw [Function.update_noteq (Ne.symm hu)]
      · have happ : applyPayout line_id (f, t) p = (f, t) := by
          unfold applyPayout
          rw [if_neg hp]
        rw [happ, ih, if_neg (by simp [hp])]

/-- Transaction-log component of the payout loop: one payout transaction is
appended, in order, for each positive payout. -/
theorem applyPayout_foldl_txns (line_id : ℕ) (l : List (ℕ × ℤ)) :
    ∀ (f : ℕ → ℤ) (t : List Txn),
      (l.foldl (applyPayout line_id) (f, t)).2 =
        t ++ (l.filter (fun p => 0 < p.2)).map (payoutTxn line_id) := by
  induction l with
  | nil =>
      intro f t
      simp
  | cons p rest ih =>
      intro f t
      rw [List.foldl_cons]
      simp only [List.filter_cons]
      by_cases hp : 0 < p.2
      · have happ : applyPayout line_id (f, t) p =
            (Function.update f p.1 (f p.1 + p.2), t ++ [payoutTxn line_id p]) := by
          unfold applyPayout
          rw [if_pos hp]
        rw [happ, ih, if_pos (by simp [hp]), List.map_cons]
        simp [List.append_assoc]
      · have happ : applyPayout line_id (f, t) p = (f, t) := by
          unfold applyPayout
          rw [if_neg hp]
        rw [happ, ih, if_neg (by simp [hp])]

/-- C3: resolving an unresolved market with outcome yes or no gives every
winning lot payout `round(shares)`, every losing lot payout 0, reports the
total payout as the sum of `round(shares)` over the winning lots, credits
each account with its positive payouts, and appends one payout transaction
per positive payout. -/
theorem resolve_line_payout_correct (s : MarketState) (c : String)
    (hres : s.line.resolved = false) (hc : c = "yes" ∨ c = "no") :
    ∃ (s' : MarketState) (sum : ResolveSummary),
      resolve_line s c = (s', Except.ok sum) ∧
      (∀ b ∈ s'.bets, (b.outcome = c → b.payout = some (pyRound (b.shares.getD 0))) ∧
        (¬ b.outcome = c → b.payout = some 0)) ∧
      sum.total_payout = ((s.bets.filter (fun b => b.outcome = c)).map betPayout).sum ∧
      (∀ u : ℕ, s'.balances u = s.balances u +
        ((((s.bets.filter (fun b => b.outcome = c)).map
            (fun b => (b.user_id, betPayout b))).filter
            (fun p => p.1 = u ∧ 0 < p.2)).map Prod.snd).sum) ∧
      s'.txns = s.txns ++
        (((s.bets.filter (fun b => b.outcome = c)).map
            (fun b => (b.user_id, betPayout b))).filter
          (fun p => 0 < p.2)).map (payoutTxn s.line.id) := by
  unfold resolve_line
  rw [if_neg (by simp [hres])]
  by_cases hemp : s.bets.isEmpty
  · have hnil : s.bets = [] := by
      simpa [List.isEmpty_iff] using hemp
    rw [if_pos hemp]
    refine ⟨_, _, rfl, ?_, ?_, ?_, ?_⟩
    · intro b hb
      have hb' : b ∈ s.bets := hb
      rw [hnil] at hb'
      exact absurd hb' (List.not_mem_nil b)
    · rw [hnil]
      simp
    · intro u
      rw [hnil]
      simp
    · rw [hnil]
      simp
  · rw [if_neg hemp]
    refine ⟨_, _, rfl, ?_, ?_, ?_, ?_⟩
    · intro b hb
      simp only [List.mem_map] at hb
      obtain ⟨b0, hb0, rfl⟩ := hb
      by_cases hb0c : b0.outcome = c
      · rw [if_pos hb0c]
        constructor
        · intro _
          rfl
        · intro hcon
          exact absurd hb0c hcon
      · rw [if_neg hb0c]
        constructor
        · intro hcon
          exact absurd hcon hb0c
        · intro _
          rfl
    · show (((s.bets.filter (fun b => b.outcome = c)).map
          (fun b => (b.user_id, betPayout b))).map Prod.snd).sum =
        ((s.bets.filter (fun b => b.outcome = c)).map betPayout).sum
      rw [List.map_map]
      rfl
    · intro u
      exact applyPayout_foldl_balance s.line.id _ s.balances s.txns u
    · exact applyPayout_foldl_txns s.line.id _ s.balances s.txns

/-- Witness for C3 on a concrete three-bet market: user 1 holds 19.09
winning shares (rounds to 19), user 2 holds 62.5 (rounds half-to-even to
62), user 3 loses. -/
theorem resolve_line_payout_correct_witness :
    ∃ (s' : MarketState) (sum : ResolveSummary),
      resolve_line resolveWitnessState "yes" = (s', Except.ok sum) ∧
      (∀ b ∈ s'.bets,
        (b.outcome = "yes" → b.payout = some (pyRound (b.shares.getD 0))) ∧
        (¬ b.outcome = "yes" → b.payout = some 0)) ∧
      sum.total_payout =
        ((resolveWitnessState.bets.filter (fun b => b.outcome = "yes")).map betPayout).sum ∧
      (∀ u : ℕ, s'.balances u = resolveWitnessState.balances u +
        ((((resolveWitnessState.bets.filter (fun b => b.outcome = "yes")).map
            (fun b => (b.user_id, betPayout b))).filter
            (fun p => p.1 = u ∧ 0 < p.2)).map Prod.snd).sum) ∧
      s'.txns = resolveWitnessState.txns ++
        (((resolveWitnessState.bets.filter (fun b => b.outcome = "yes")).map
            (fun b => (b.user_id, betPayout b))).filter
          (fun p => 0 < p.2)).map (payoutTxn resolveWitnessState.line.id) :=
  resolve_line_payout_correct resolveWitnessState "yes" rfl (Or.inl rfl)

/-- C7: resolving an already-resolved market fails with the
already-resolved error and returns the state unchanged, and a successful
resolution leaves the market resolved so that any later resolution attempt
fails the same way — the open-to-resolved transition happens at most once
and is never a silent no-op. -/
theorem resolve_line_terminal_once :
    (∀ (s : MarketState) (c : String), s.line.resolved = true →
      resolve_line s c = (s, Except.error "already resolved")) ∧
    (∀ (s : MarketState) (c : String) (s' : MarketState) (sum : ResolveSummary),
      resolve_line s c = (s', Except.ok sum) →
      s'.line.resolved = true ∧
      ∀ c' : String, resolve_line s' c' = (s', Except.error "already resolved")) := by
  have herr : ∀ (s : MarketState) (c : String), s.line.resolved = true →
      resolve_line s c = (s, Except.error "already resolved") := by
    intro s c h
    unfold resolve_line
    rw [if_pos h]
  refine ⟨herr, ?_⟩
  intro s c s' sum h
  unfold resolve_line at h
  by_cases hres : s.line.resolved
  · rw [if_pos hres] at h
    simp at h
  · rw [if_neg hres] at h
    by_cases hemp : s.bets.isEmpty
    · rw [if_pos hemp] at h
      have hs' := congrArg Prod.fst h
      simp only [] at hs'
      rw [← hs']
      exact ⟨rfl, fun c' => herr _ c' rfl⟩
    · rw [if_neg hemp] at h
      have hs' := congrArg Prod.fst h
      simp only [] at hs'
      rw [← hs']
      exact ⟨rfl, fun c' => herr _ c' rfl⟩

/-- Witness for C7 on a concrete already-resolved market. -/
theorem resolve_line_terminal_once_witness :
    resolve_line resolvedWitnessState "yes" =
      (resolvedWitnessState, Except.error "already resolved") :=
  resolve_line_terminal_once.1 resolvedWitnessState "yes" rfl

end Ledger

namespace Ledger

/-- Balance component of the refund loop: over a duplicate-free user list,
each listed user ends with their starting balance plus
`max 0 (netInvestment)`, everyone else is untouched. -/
theorem applyRefund_foldl_balance (s : MarketState) (l : List ℕ) :
    l.Nodup → ∀ (acc : (ℕ → ℤ) × List Txn × ℕ × ℤ) (u : ℕ),
      (l.foldl (applyRefund s) acc).1 u =
        if u ∈ l then acc.1 u + max 0 (netInvestment s u) else acc.1 u := by
  induction l with
  | nil =>
      intro _ acc u
      simp
  | cons a rest ih =>
      intro hnd acc u
      obtain ⟨ha, hrest⟩ := List.nodup_cons.mp hnd
      rw [List.foldl_cons, ih hrest]
      by_cases hu : u = a
      · subst hu
        rw [if_neg (fun hc => ha hc), if_pos (List.mem_cons_self _ _)]
        unfold applyRefund
        by_cases hr : 0 < max 0 (netInvestment s u)
        · rw [if_pos hr]
          simp only []
          rw [Function.update_same]
        · rw [if_neg hr]
          have h0 : 0 ≤ max 0 (netInvestment s u) := le_max_left _ _
          omega
      · have hfst : (applyRefund s acc a).1 u = acc.1 u := by
          unfold applyRefund
          by_cases hr : 0 < max 0 (netInvestment s a)
          · rw [if_pos hr]
            simp only []
            rw [Function.update_noteq hu]
          · rw [if_neg hr]
        rw [hfst]
        by_cases hmem : u ∈ rest
        · rw [if_pos hmem, if_pos (List.mem_cons_of_mem _ hmem)]
        · rw [if_neg hmem, if_neg (by simp [hu, hmem])]

/-- C4: invalidating an unresolved market refunds every account with
activity on it exactly `max 0 (netInvestment)` where `netInvestment` is
its buy stakes minus its sell proceeds from the transaction log, leaves
every other account untouched, and turns the market into the terminal
resolved state with outcome `invalid` and both pools forced to 0.  In
particular an account that bought 100 and sold for 120 is refunded
`max 0 (100 - 120) = 0` and an account that only bought 100 is refunded
`max 0 100 = 100`. -/
theorem invalidate_line_refund_correct (s : MarketState)
    (hres : s.line.resolved = false) :
    ∃ (s' : MarketState) (sum : InvalidateSummary),
      invalidate_line s = (s', Except.ok sum) ∧
      (∀ u ∈ activeUsers s,
        s'.balances u = s.balances u + max 0 (netInvestment s u)) ∧
      (∀ u, u ∉ activeUsers s → s'.balances u = s.balances u) ∧
      s'.line.resolved = true ∧
      s'.line.correct_outcome = some "invalid" ∧
      s'.line.yes_pool = 0 ∧ s'.line.no_pool = 0 := by
  unfold invalidate_line
  rw [if_neg (by simp [hres])]
  refine ⟨_, _, rfl, ?_, ?_, rfl, rfl, rfl, rfl⟩
  · intro u hu
    have h := applyRefund_foldl_balance s (activeUsers s) (List.nodup_dedup _)
      (s.balances, s.txns, 0, 0) u
    rw [if_pos hu] at h
    exact h
  · intro u hu
    have h := applyRefund_foldl_balance s (activeUsers s) (List.nodup_dedup _)
      (s.balances, s.txns, 0, 0) u
    rw [if_neg hu] at h
    exact h

/-- Witness for C4 on the concrete state where user 1 bought 100 and sold
for 120 (net -20, refund 0) and user 2 only bought 100 (refund 100). -/
theorem invalidate_line_refund_correct_witness :
    ∃ (s' : MarketState) (sum : InvalidateSummary),
      invalidate_line invalidateWitnessState = (s', Except.ok sum) ∧
      (∀ u ∈ activeUsers invalidateWitnessState,
        s'.balances u = invalidateWitnessState.balances u +
          max 0 (netInvestment invalidateWitnessState u)) ∧
      (∀ u, u ∉ activeUsers invalidateWitnessState →
        s'.balances u = invalidateWitnessState.balances u) ∧
      s'.line.resolved = true ∧
      s'.line.correct_outcome = some "invalid" ∧
      s'.line.yes_pool = 0 ∧ s'.line.no_pool = 0 :=
  invalidate_line_refund_correct invalidateWitnessState rfl

end Ledger

namespace Portfolio

/-- The three running sums computed by the metrics loop of
`get_portfolio_summary`, expressed over an arbitrary position list. -/
theorem addPosition_foldl (l : List Position) :
    ∀ acc : Metrics,
      (l.foldl addPosition acc).total_invested =
        acc.total_invested + (l.map Position.total_cost).sum ∧
      (l.foldl addPosition acc).active_value =
        acc.active_value + ((l.filter (fun p => !p.line.resolved)).map positionValue).sum ∧
      (l.foldl addPosition acc).total_returned =
        acc.total_returned +
          (((l.filter (fun p => p.line.resolved)).map Position.total_payout).sum +
            ((l.filter (fun p => !p.line.resolved)).map positionValue).sum) := by
  induction l with
  | nil =>
      intro acc
      simp
  | cons p rest ih =>
      intro acc
      rw [List.foldl_cons]
      obtain ⟨h1, h2, h3⟩ := ih (addPosition acc p)
      by_cases hres : p.line.resolved
      · have ha : addPosition acc p =
            { acc with
                total_invested := acc.total_invested + p.total_cost
                total_returned := acc.total_returned + p.total_payout
                resolved_count := acc.resolved_count + 1 } := by
          unfold addPosition
          rw [if_pos hres]
        refine ⟨?_, ?_, ?_⟩
        · rw [h1, ha]
          simp only [List.map_cons, List.sum_cons]
          ring
        · rw [h2, ha]
          simp only [List.filter_cons, hres]
          norm_num
        · rw [h3, ha]
          simp only [List.filter_cons, hres]
          norm_num
          ring
      · have ha : addPosition acc p =
            { acc with
                total_invested := acc.total_invested + p.total_cost
                active_invested := acc.active_invested + p.total_cost
                active_value := acc.active_value + positionValue p
                total_returned := acc.total_returned + positionValue p
                active_count := acc.active_count + 1 } := by
          unfold addPosition
          rw [if_neg hres]
        have hresF : p.line.resolved = false := Bool.not_eq_true _ ▸ eq_false_of_ne_true hres
        refine ⟨?_, ?_, ?_⟩
        · rw [h1, ha]
          simp only [List.map_cons, List.sum_cons]
          ring
        · rw [h2, ha]
          simp only [List.filter_cons, hresF]
          norm_num
          ring
        · rw [h3, ha]
          simp only [List.filter_cons, hresF]
          norm_num
          ring

/-- C9: `portfolioSummary` reports `totalPortfolioValue` as the cash
balance plus the sum of the CPMM liquidation values of the aggregated
active positions only (resolved payouts are not added again), and
`totalPnl` as resolved payouts plus active liquidation values minus the
total cost of all aggregated positions, each active value being computed
once per `(market, outcome)` position from its aggregated share total. -/
theorem portfolio_summary_totals (bets : List PBet) (balance : ℝ) :
    (get_portfolio_summary bets balance).total_portfolio_value =
      balance + ((((aggregatePositions bets).map Prod.snd).filter
        (fun p => !p.line.resolved)).map positionValue).sum ∧
    (get_portfolio_summary bets balance).total_pnl =
      (((((aggregatePositions bets).map Prod.snd).filter
          (fun p => p.line.resolved)).map Position.total_payout).sum +
        ((((aggregatePositions bets).map Prod.snd).filter
          (fun p => !p.line.resolved)).map positionValue).sum) -
      (((aggregatePositions bets).map Prod.snd).map Position.total_cost).sum := by
  obtain ⟨h1, h2, h3⟩ := addPosition_foldl ((aggregatePositions bets).map Prod.snd)
    { active_invested := 0, active_value := 0, total_invested := 0,
      total_returned := 0, active_count := 0, resolved_count := 0 }
  constructor
  · show balance + ((((aggregatePositions bets).map Prod.snd).foldl addPosition
        { active_invested := 0, active_value := 0, total_invested := 0,
          total_returned := 0, active_count := 0, resolved_count := 0 }).active_value) = _
    rw [h2]
    simp only []
    ring
  · show ((((aggregatePositions bets).map Prod.snd).foldl addPosition
        { active_invested := 0, active_value := 0, total_invested := 0,
          total_returned := 0, active_count := 0, resolved_count := 0 }).total_returned) -
      ((((aggregatePositions bets).map Prod.snd).foldl addPosition
        { active_invested := 0, active_value := 0, total_invested := 0,
          total_returned := 0, active_count := 0, resolved_count := 0 }).total_invested) = _
    rw [h1, h3]
    simp only []
    ring

end Portfolio
